import Mathlib

/-!
Shallow embedding of the cs2_map_parser repository
(`src/cs2_map_parser/__init__.py` and `src/cs2_map_parser/tri_parser.py`).

Byte strings are modelled as `List Nat` (each element a byte value).
A triangle record is its raw 36-byte string (three 12-byte vertices of
three little-endian float32 fields each); the float32 unpacking done by
`tri_parser.py` is a presentation layer on top of these fixed-width
records, so all structural properties are stated at the byte level.
Python exceptions are modelled with `Option`/`Except`: `none` means the
Python call raised (or, for the fuelled hull loop, that the loop has not
finished within the given number of iterations).
-/

/-- A triangle record: the raw 36 bytes `tri_parser.py` reads per triangle. -/
abbrev Tri := List Nat

/-- Little-endian value of a byte string, least significant byte first.
Embeds Python `int.from_bytes(bs, "little")` (which accepts any length,
including the empty string, giving 0). -/
def leNum : List Nat → Nat
  | [] => 0
  | b :: rest => b + 256 * leNum rest

/-- The 8 little-endian bytes Python `n.to_bytes(8, "little")` produces
(for `n < 2^64`; Python raises `OverflowError` above that, which the
round-trip theorems exclude by hypothesis). -/
def le64 (n : Nat) : List Nat :=
  [n % 256, n / 256 % 256, n / 65536 % 256, n / 16777216 % 256,
   n / 4294967296 % 256, n / 1099511627776 % 256,
   n / 281474976710656 % 256, n / 72057594037927936 % 256]

/-- Embeds `unpack("<Q", stream.read(0x8))` in `read_opt_file`: requires 8
bytes (Python `struct.unpack` raises on a short read), returns the value
and the rest of the stream. -/
def readLE64 (bs : List Nat) : Option (Nat × List Nat) :=
  if 8 ≤ bs.length then some (leNum (bs.take 8), bs.drop 8) else none

/-- Embeds the inner `for _ in range(triangle_count)` of `read_opt_file`:
reads `k` consecutive 36-byte triangle records; a short read raises
(`unpack` on a slice of fewer than 12 bytes fails). -/
def readTris : Nat → List Nat → Option (List Tri × List Nat)
  | 0, bs => some ([], bs)
  | k + 1, bs =>
    if bs.length < 36 then none
    else
      match readTris k (bs.drop 36) with
      | none => none
      | some (ts, rest) => some (bs.take 36 :: ts, rest)

/-- Embeds the chunk loop of `read_opt_file` (`tri_parser.py` lines 52-67)
faithfully, including the list-aliasing bug: `triangles = [[]] * chunk_count`
makes every `triangles[index]` the same list object, so each chunk's
`append` calls all land in one shared accumulator `acc`.  A zero
`triangle_count` raises (`none`). -/
def readChunksAcc : Nat → List Tri → List Nat → Option (List Tri × List Nat)
  | 0, acc, bs => some (acc, bs)
  | n + 1, acc, bs =>
    match readLE64 bs with
    | none => none
    | some (cnt, bs1) =>
      if cnt = 0 then none
      else
        match readTris cnt bs1 with
        | none => none
        | some (ts, bs2) => readChunksAcc n (acc ++ ts) bs2

/-- Embeds `read_opt_file` (`tri_parser.py` lines 46-68): reads the 8-byte
chunk count (zero raises), then the chunk loop; because all `chunk_count`
list slots alias one shared list, the returned value is `chunk_count`
copies of the shared accumulator. -/
def read_opt_file (bs : List Nat) : Option (List (List Tri)) :=
  match readLE64 bs with
  | none => none
  | some (n, bs1) =>
    if n = 0 then none
    else
      match readChunksAcc n [] bs1 with
      | none => none
      | some (allTris, _) => some (List.replicate n allTris)

/-- The per-chunk reading of the same chunked byte layout, keeping each
chunk's triangles in its own list: used to state what `read_opt_file`
actually returns (`read_opt_file` collapses these chunks into aliased
copies of their concatenation). -/
def readChunksSep : Nat → List Nat → Option (List (List Tri) × List Nat)
  | 0, bs => some ([], bs)
  | n + 1, bs =>
    match readLE64 bs with
    | none => none
    | some (cnt, bs1) =>
      if cnt = 0 then none
      else
        match readTris cnt bs1 with
        | none => none
        | some (ts, bs2) =>
          match readChunksSep n bs2 with
          | none => none
          | some (css, rest) => some (ts :: css, rest)

/-- Top-level per-chunk reader of the chunked layout (companion of
`readChunksSep`, same format as `read_opt_file`). -/
def readOptSep (bs : List Nat) : Option (List (List Tri)) :=
  match readLE64 bs with
  | none => none
  | some (n, bs1) =>
    if n = 0 then none
    else
      match readChunksSep n bs1 with
      | none => none
      | some (css, _) => some css

/-- Embeds `PhysicsFile.to_opt_file` (`__init__.py` lines 124-140): an
8-byte chunk count (patched into the leading `bytearray(0x08)`), then per
extracted part its 8-byte triangle count `len(blob) // 36` followed by the
part's raw triangle bytes.  `chunks` are the byte blobs the extraction
generators yield. -/
def to_opt_file (chunks : List (List Nat)) : List Nat :=
  le64 chunks.length ++ (chunks.map (fun c => le64 (c.length / 36) ++ c)).flatten

/-- Embeds `PhysicsFile.to_triangle_file` (`__init__.py` lines 107-118):
plain concatenation of the extracted parts' triangle bytes. -/
def to_triangle_file (chunks : List (List Nat)) : List Nat :=
  chunks.flatten

/-- Embeds the `readinto` loop of `read_triangle_file` (`tri_parser.py`
lines 72-88) with fuel bounding the number of iterations: EOF (empty
rest) ends the loop, a trailing partial record (fewer than 36 bytes)
raises.  Each full iteration consumes 36 bytes, so fuel `bs.length`
always suffices. -/
def readFlatGo : Nat → List Nat → Option (List Tri)
  | _, [] => some []
  | 0, _ :: _ => none
  | fuel + 1, bs =>
    if bs.length < 36 then none
    else
      match readFlatGo fuel (bs.drop 36) with
      | none => none
      | some ts => some (bs.take 36 :: ts)

/-- Embeds `read_triangle_file` (`tri_parser.py` lines 72-88): consumes
36-byte records until the input is exhausted. -/
def read_triangle_file (bs : List Nat) : Option (List Tri) :=
  readFlatGo bs.length bs

/-- The `PHYS` block-type tag of `ModelFile.BlockType` (`__init__.py` line
166): the ASCII codes of P, H, Y, S packed little-endian into 32 bits. -/
def physTag : Nat := 0x50 + 0x48 * 256 + 0x59 * 65536 + 0x53 * 16777216

/-- Embeds `BinaryReader.read_uint32` at byte position `p`: requires 4
bytes, decoded little-endian; a short read raises. -/
def readU32 (bs : List Nat) (p : Nat) : Option Nat :=
  if p + 4 ≤ bs.length then some (leNum ((bs.drop p).take 4)) else none

/-- The little-endian 32-bit value at byte position `p`, as a total
function (used to state properties of in-bounds block-table entries). -/
def u32at (bs : List Nat) (p : Nat) : Nat :=
  leNum ((bs.drop p).take 4)

/-- Errors of the block scanner `ModelFile.get_physics_file`:
`blockNotFound` embeds the `RuntimeError("Cant found Block: PHYS")` raised
when the block count is exhausted, `readError` any reader failure (read
past the end of the buffer). -/
inductive ScanErr
  | blockNotFound
  | readError
deriving DecidableEq

/-- Embeds `read_bytes(size)` after seeking to `off`: returns the `sz`
bytes starting at `off`, raising if they extend past the buffer. -/
def readSlice (bs : List Nat) (off sz : Nat) : Option (List Nat) :=
  if off + sz ≤ bs.length then some ((bs.drop off).take sz) else none

/-- Embeds the block-table loop of `ModelFile.get_physics_file`
(`__init__.py` lines 209-232).  At entry start `p`: read `block_type`
(4 bytes), capture `position = p + 4`, read the relative offset and
compute `offset = position + rel` (note: `position` is taken BEFORE the
offset field is read), read `size`; a zero `size` skips to the next entry
at `p + 12` (= `position + 8`), a `PHYS` tag with nonzero size seeks to
`offset` and returns `size` bytes, anything else skips to `p + 12`;
an exhausted count raises `blockNotFound`. -/
def scanLoop (bs : List Nat) : Nat → Nat → Except ScanErr (List Nat)
  | _, 0 => Except.error ScanErr.blockNotFound
  | p, rem + 1 =>
    match readU32 bs p, readU32 bs (p + 4), readU32 bs (p + 8) with
    | some btype, some rel, some size =>
      if size = 0 then scanLoop bs (p + 12) rem
      else if btype = physTag then
        match readSlice bs (p + 4 + rel) size with
        | some data => Except.ok data
        | none => Except.error ScanErr.readError
      else scanLoop bs (p + 12) rem
    | _, _, _ => Except.error ScanErr.readError

/-- Embeds `ModelFile.get_physics_file` (`__init__.py` lines 200-232):
reads the 16-byte header (`file_size` u32, two u16 versions — modelled as
one 4-byte read over the same bytes — `block_offset` u32, `block_count`
u32), seeks `block_offset - 0x8` from the cursor at 16 (landing at
`block_offset + 8`), then runs the block-table loop. -/
def get_physics_file (bs : List Nat) : Except ScanErr (List Nat) :=
  match readU32 bs 0, readU32 bs 4, readU32 bs 8, readU32 bs 12 with
  | some _, some _, some bo, some cnt => scanLoop bs (bo + 8) cnt
  | _, _, _, _ => Except.error ScanErr.readError

/-- Embeds a Python byte-string slice `verts[b : b + 12]` (`__init__.py`
lines 73-75 and 101-103): slicing clamps to the buffer, so an
out-of-range start yields a short or empty result, never an error. -/
def vslice (verts : List Nat) (b : Nat) : List Nat :=
  (verts.drop b).take 12

/-- Embeds the triangle emission of one hull-loop iteration (`__init__.py`
lines 72-76): look up the `origin` byte (offset 2) of the half-edge
records of `e` (current edge), `s` (face start edge) and `n` (next edge)
— an out-of-range record index is a Python `IndexError` (`none`) — and
emit the three clamped 12-byte vertex slices IN THAT ORDER (current edge
origin first, start edge origin second, next edge origin third). -/
def triAt (verts edges : List Nat) (e s n : Nat) : Option (List Nat) :=
  match edges.get? (4 * e + 2), edges.get? (4 * s + 2), edges.get? (4 * n + 2) with
  | some oe, some os, some on_ =>
    some (vslice verts (12 * oe) ++ vslice verts (12 * os) ++ vslice verts (12 * on_))
  | _, _, _ => none

/-- Embeds the `while edge != start_edge` loop of `PhysicsFile.get_hulls`
(`__init__.py` lines 69-77) with an explicit iteration fuel: the source
loop has NO iteration bound, so `none` here means the loop is still
running after `fuel` iterations (for every Python exception the result is
`some (Except.error ())` instead). -/
def faceLoopGo (verts edges : List Nat) (s : Nat) : Nat → Nat → Option (Except Unit (List Nat))
  | 0, e => if e = s then some (Except.ok []) else none
  | fuel + 1, e =>
    if e = s then some (Except.ok [])
    else
      match edges.get? (4 * e) with
      | none => some (Except.error ())
      | some n =>
        match triAt verts edges e s n with
        | none => some (Except.error ())
        | some t =>
          match faceLoopGo verts edges s fuel n with
          | none => none
          | some (Except.error u) => some (Except.error u)
          | some (Except.ok rest) => some (Except.ok (t ++ rest))

/-- Embeds the `for start_edge in faces` loop of `PhysicsFile.get_hulls`
(`__init__.py` lines 67-78): for each face byte `s`, start at
`edge = edges[s << 2]` (an out-of-range index raises) and run the
half-edge loop; the face outputs are concatenated into the part's
`saved_triangles` bytearray. -/
def extractHullGo (verts edges : List Nat) (fuel : Nat) : List Nat → Option (Except Unit (List Nat))
  | [] => some (Except.ok [])
  | s :: fs =>
    match edges.get? (4 * s) with
    | none => some (Except.error ())
    | some e0 =>
      match faceLoopGo verts edges s fuel e0 with
      | none => none
      | some (Except.error u) => some (Except.error u)
      | some (Except.ok tris) =>
        match extractHullGo verts edges fuel fs with
        | none => none
        | some (Except.error u) => some (Except.error u)
        | some (Except.ok rest) => some (Except.ok (tris ++ rest))

/-- One hull part's triangle bytes (`PhysicsFile.get_hulls`, `__init__.py`
lines 66-78), with `fuel` bounding the unbounded while loops. -/
def extractHullPart (verts faces edges : List Nat) (fuel : Nat) : Option (Except Unit (List Nat)) :=
  extractHullGo verts edges fuel faces

/-- Embeds the triangle count of `PhysicsFile.get_meshes` (`__init__.py`
line 97): `(len(triangles) * 0x55555556) >> 34`, the reciprocal-multiply
replacement for `len // 12`. -/
def meshTriangleCount (len : Nat) : Nat :=
  (len * 0x55555556) >>> 34

/-- The vertex index `j` (0, 1 or 2) of mesh triangle `i`: embeds
`int.from_bytes(triangles[12 * i + 4 * j : 12 * i + 4 * j + 4], "little")`
(`__init__.py` lines 101-103); the slice clamps, and `int.from_bytes` of a
short or empty string is the value of the available bytes. -/
def meshVIdx (tris : List Nat) (i j : Nat) : Nat :=
  leNum ((tris.drop (12 * i + 4 * j)).take 4)

/-- The bytes one mesh triangle contributes (`__init__.py` lines 100-104):
three clamped 12-byte vertex slices at `12 * index`. -/
def meshTri (tris verts : List Nat) (i : Nat) : List Nat :=
  vslice verts (12 * meshVIdx tris i 0) ++ vslice verts (12 * meshVIdx tris i 1) ++
    vslice verts (12 * meshVIdx tris i 2)

/-- Embeds the `for triangle in range(...)` loop of `PhysicsFile.get_meshes`
(`__init__.py` lines 96-104), emitting triangles `0, 1, ..., n - 1`.
Every operation in the loop body is a clamped slice or `int.from_bytes`,
so the loop cannot raise: the extraction is total. -/
def extractMeshGo (tris verts : List Nat) : Nat → List Nat
  | 0 => []
  | n + 1 => extractMeshGo tris verts n ++ meshTri tris verts n

/-- One mesh part's triangle bytes (`PhysicsFile.get_meshes`, `__init__.py`
lines 92-105). -/
def extractMeshPart (tris verts : List Nat) : List Nat :=
  extractMeshGo tris verts (meshTriangleCount tris.length)

/-- Embeds the collision-part selection loop shared by
`PhysicsFile.get_hulls` (lines 46-57) and `PhysicsFile.get_meshes` (lines
80-91): the part list is scanned from index 0; an entry's first component
is its `m_nCollisionAttributeIndex` (`none` embeds a failed lookup —
missing key), and running past the end of the list embeds an
out-of-range index; both break the scan.  A non-zero attribute skips the
entry (`continue`), a zero attribute yields the entry's payload — the
byte string its extraction produces. -/
def scanParts : List (Option Int × List Nat) → List (List Nat)
  | [] => []
  | (none, _) :: _ => []
  | (some a, payload) :: rest =>
    if a ≠ 0 then scanParts rest else payload :: scanParts rest

/-! ## Generic helper lemmas -/

/-- The byte blob of a list of 36-byte triangle records has length
`36 * count`. -/
lemma flatten_length_of_tri36 (c : List Tri) (h : ∀ t ∈ c, t.length = 36) :
    c.flatten.length = 36 * c.length := by
  induction c with
  | nil => simp
  | cons t rest ih =>
    simp only [List.flatten_cons, List.length_append, List.length_cons]
    rw [h t (by simp), ih fun t ht => h t (by simp [ht])]
    ring

/-- Reading back the 8 little-endian bytes of `n < 2^64` yields `n`. -/
lemma leNum_le64 (n : Nat) (h : n < 2 ^ 64) : leNum (le64 n) = n := by
  simp only [le64, leNum]
  omega

/-- `readLE64` undoes `le64` and leaves the rest of the stream. -/
lemma readLE64_le64 (n : Nat) (rest : List Nat) (h : n < 2 ^ 64) :
    readLE64 (le64 n ++ rest) = some (n, rest) := by
  have hlen : (le64 n).length = 8 := rfl
  unfold readLE64
  rw [if_pos (by simp [hlen]), List.take_left' hlen, List.drop_left' hlen, leNum_le64 n h]

/-- Reading `c.length` records off the concatenation of the 36-byte
records of `c` returns exactly `c` and the trailing stream. -/
lemma readTris_flatten (c : List Tri) :
    ∀ tail : List Nat, (∀ t ∈ c, t.length = 36) →
      readTris c.length (c.flatten ++ tail) = some (c, tail) := by
  induction c with
  | nil => intro tail _; rfl
  | cons t rest ih =>
    intro tail h36
    have ht : t.length = 36 := h36 t (by simp)
    have hrest : ∀ u ∈ rest, u.length = 36 := fun u hu => h36 u (by simp [hu])
    show readTris (rest.length + 1) ((t ++ rest.flatten) ++ tail) = _
    rw [List.append_assoc]
    unfold readTris
    rw [if_neg (by simp [ht]), List.drop_left' ht, ih tail hrest,
      List.take_left' ht]

/-! ## C5: flat round-trip -/

/-- The flat reader returns the exact record list of any concatenation of
36-byte records, given enough fuel. -/
lemma readFlatGo_flatten (ts : List Tri) :
    ∀ fuel : Nat, (∀ t ∈ ts, t.length = 36) → ts.length ≤ fuel →
      readFlatGo fuel ts.flatten = some ts := by
  induction ts with
  | nil => intro fuel _ _; cases fuel <;> rfl
  | cons t rest ih =>
    intro fuel h36 hfuel
    have ht : t.length = 36 := h36 t (by simp)
    have hrest : ∀ u ∈ rest, u.length = 36 := fun u hu => h36 u (by simp [hu])
    obtain ⟨f, rfl⟩ : ∃ f, fuel = f + 1 := by
      cases fuel with
      | zero => simp at hfuel
      | succ f => exact ⟨f, rfl⟩
    obtain ⟨b, t', rfl⟩ : ∃ b t', t = b :: t' := by
      cases t with
      | nil => simp at ht
      | cons b t' => exact ⟨b, t', rfl⟩
    have ht' : t'.length + 1 = 36 := by simpa using ht
    show readFlatGo (f + 1) ((b :: t') ++ rest.flatten) = _
    rw [List.cons_append]
    unfold readFlatGo
    rw [if_neg (by simp only [List.length_cons, List.length_append]; omega)]
    rw [show (b :: (t' ++ rest.flatten)).drop 36 = rest.flatten from by
        rw [← List.cons_append]; exact List.drop_left' ht,
      ih f hrest (by simpa using hfuel),
      show (b :: (t' ++ rest.flatten)).take 36 = b :: t' from by
        rw [← List.cons_append]; exact List.take_left' ht]

/-- C5 (confirmed): decoding the flat 36-byte-per-triangle encoding of any
non-empty triangle sequence returns the same triangles in the same order
(`read_triangle_file` after `to_triangle_file`, at the byte-record
level). -/
theorem C5_flat_roundtrip (ts : List Tri) (hne : ts ≠ [])
    (h36 : ∀ t ∈ ts, t.length = 36) :
    read_triangle_file (to_triangle_file ts) = some ts := by
  have : ts ≠ [] := hne
  unfold read_triangle_file to_triangle_file
  exact readFlatGo_flatten ts ts.flatten.length h36
    (by rw [flatten_length_of_tri36 ts h36]; omega)

/-- Witness for C5 at a concrete one-triangle sequence. -/
theorem C5_witness :
    read_triangle_file (to_triangle_file [List.replicate 36 7]) =
      some [List.replicate 36 7] :=
  C5_flat_roundtrip [List.replicate 36 7] (by decide) (by decide)

/-! ## C6: reciprocal-multiply division -/

/-- C6 counterexample: `len = 2147483651` is below `2^33`, yet the
reciprocal-multiply expression of `get_meshes` differs from `len / 12`
there (it yields 178956971 instead of 178956970). -/
theorem C6_counterexample :
    2147483651 < 2 ^ 33 ∧ meshTriangleCount 2147483651 ≠ 2147483651 / 12 := by
  constructor
  · norm_num
  · decide

/-- C6 (amended): `(len * 0x55555556) >> 34 = len / 12` holds for every
byte length `len ≤ 2147483650` (in particular for every buffer smaller
than 2 GiB), so on that range the mesh path's triangle count is
`byte_length / 12`; the first failure is at `len = 2147483651`. -/
theorem C6_count_amended (len : Nat) (h : len ≤ 2147483650) :
    meshTriangleCount len = len / 12 := by
  unfold meshTriangleCount
  rw [Nat.shiftRight_eq_div_pow]
  have h34 : (2 : Nat) ^ 34 = 17179869184 := by norm_num
  rw [h34]
  omega

/-- Witness for C6 at `len = 120`. -/
theorem C6_witness : meshTriangleCount 120 = 120 / 12 :=
  C6_count_amended 120 (by norm_num)

/-! ## C7: collision-part selection -/

/-- C7 (confirmed): the part scan of `get_hulls` / `get_meshes` visits
indices in order and returns exactly the payloads of the parts that lie
before the first absent collision attribute and whose attribute is zero:
non-zero attributes contribute nothing, zero attributes contribute their
full payload, and the first absence terminates the scan without error. -/
theorem C7_selection (parts : List (Option Int × List Nat)) :
    scanParts parts =
      ((parts.takeWhile fun p => p.1.isSome).filter fun p => p.1 == some 0).map
        Prod.snd := by
  induction parts with
  | nil => rfl
  | cons p rest ih =>
    obtain ⟨a, payload⟩ := p
    cases a with
    | none => simp [scanParts, List.takeWhile_cons]
    | some v =>
      by_cases hv : v = 0
      · subst hv
        simp [scanParts, List.takeWhile_cons, List.filter_cons, ih]
      · simp [scanParts, List.takeWhile_cons, List.filter_cons, hv, ih]

/-! ## C9: out-of-range mesh vertex index -/

/-- C9 counterexample: a mesh part whose index buffer references vertex 5
while only 2 vertices (24 bytes) exist.  The 12-byte range of vertex 5
lies outside the vertex buffer, yet extraction succeeds and silently
returns 24 bytes instead of the 36 a full triangle would occupy. -/
theorem C9_counterexample :
    (List.range 24).length < 12 * meshVIdx [0,0,0,0, 1,0,0,0, 5,0,0,0] 0 2 + 12 ∧
      (extractMeshPart [0,0,0,0, 1,0,0,0, 5,0,0,0] (List.range 24)).length = 24 := by
  decide

/-- A clamped vertex slice is at most 12 bytes. -/
lemma vslice_length_le (verts : List Nat) (b : Nat) : (vslice verts b).length ≤ 12 := by
  simp [vslice]

/-- One mesh triangle contributes at most 36 bytes. -/
lemma meshTri_length_le (tris verts : List Nat) (i : Nat) :
    (meshTri tris verts i).length ≤ 36 := by
  simp [meshTri, vslice]
  omega

/-- One mesh triangle contributes exactly 36 bytes precisely when its
three vertex indices are in range. -/
lemma meshTri_length_eq (tris verts : List Nat) (i : Nat) :
    (meshTri tris verts i).length = 36 ↔
      ∀ j < 3, 12 * meshVIdx tris i j + 12 ≤ verts.length := by
  simp only [meshTri, vslice, List.length_append, List.length_take, List.length_drop]
  constructor
  · intro h j hj
    interval_cases j <;> omega
  · intro h
    have h0 := h 0 (by omega)
    have h1 := h 1 (by omega)
    have h2 := h 2 (by omega)
    omega

/-- The mesh loop's output length is bounded by 36 bytes per triangle. -/
lemma extractMeshGo_length_le (tris verts : List Nat) :
    ∀ n, (extractMeshGo tris verts n).length ≤ 36 * n := by
  intro n
  induction n with
  | zero => simp [extractMeshGo]
  | succ n ih =>
    have := meshTri_length_le tris verts n
    simp only [extractMeshGo, List.length_append]
    omega

/-- C9 (amended): an out-of-range vertex index in a mesh part is NOT an
error — Python slicing clamps, so extraction always succeeds
(`extractMeshPart` is total) and the part's byte output has the full
`36 * count` length exactly when every referenced vertex index is in
range; an out-of-range index silently contributes a truncated (possibly
empty) slice instead. -/
theorem C9_clamped_amended (tris verts : List Nat) :
    (extractMeshPart tris verts).length = 36 * meshTriangleCount tris.length ↔
      ∀ i < meshTriangleCount tris.length, ∀ j < 3,
        12 * meshVIdx tris i j + 12 ≤ verts.length := by
  unfold extractMeshPart
  generalize meshTriangleCount tris.length = n
  induction n with
  | zero => simp [extractMeshGo]
  | succ n ih =>
    have hle := extractMeshGo_length_le tris verts n
    have htle := meshTri_length_le tris verts n
    simp only [extractMeshGo, List.length_append]
    constructor
    · intro h i hi j hj
      have hsplit : (extractMeshGo tris verts n).length = 36 * n ∧
          (meshTri tris verts n).length = 36 := by omega
      rcases Nat.lt_succ_iff_lt_or_eq.mp hi with hlt | rfl
      · exact (ih.mp hsplit.1) i hlt j hj
      · exact (meshTri_length_eq tris verts i).mp hsplit.2 j hj
    · intro h
      have h1 : (extractMeshGo tris verts n).length = 36 * n :=
        ih.mpr fun i hi j hj => h i (Nat.lt_succ_of_lt hi) j hj
      have h2 : (meshTri tris verts n).length = 36 :=
        (meshTri_length_eq tris verts n).mpr fun j hj => h n (Nat.lt_succ_self n) j hj
      omega

/-! ## C1 and C10: chunked codec -/

/-- C1 counterexample: encoding two one-triangle chunks and decoding them
does not give the two chunks back — the aliased accumulator of
`read_opt_file` turns them into two copies of the concatenation. -/
theorem C1_counterexample :
    read_opt_file (to_opt_file [List.replicate 36 0, List.replicate 36 1]) ≠
      some [[List.replicate 36 0], [List.replicate 36 1]] := by
  decide

/-- Reading `chunks.length` encoded chunks appends all their triangles, in
stream order, onto the shared accumulator and leaves the trailing
stream. -/
lemma readChunksAcc_encode (chunks : List (List Tri)) :
    ∀ (acc : List Tri) (tail : List Nat),
      (∀ c ∈ chunks, c ≠ []) → (∀ c ∈ chunks, ∀ t ∈ c, t.length = 36) →
      (∀ c ∈ chunks, c.length < 2 ^ 64) →
      readChunksAcc chunks.length acc
          ((chunks.map fun c => le64 c.length ++ c.flatten).flatten ++ tail) =
        some (acc ++ chunks.flatten, tail) := by
  induction chunks with
  | nil => intro acc tail _ _ _; simp [readChunksAcc]
  | cons c cs ih =>
    intro acc tail hne h36 hlt
    have hc : c ≠ [] := hne c (by simp)
    have hclen : c.length < 2 ^ 64 := hlt c (by simp)
    have hc36 : ∀ t ∈ c, t.length = 36 := h36 c (by simp)
    show readChunksAcc (cs.length + 1) acc
        (((le64 c.length ++ c.flatten) ++
          (cs.map fun c => le64 c.length ++ c.flatten).flatten) ++ tail) = _
    unfold readChunksAcc
    rw [List.append_assoc, List.append_assoc,
      readLE64_le64 c.length _ hclen]
    simp only
    rw [if_neg (by simpa [List.length_eq_zero] using hc),
      readTris_flatten c _ hc36]
    simp only
    rw [ih (acc ++ c) tail (fun u hu => hne u (by simp [hu]))
      (fun u hu => h36 u (by simp [hu])) (fun u hu => hlt u (by simp [hu]))]
    simp

/-- C1 (amended): for a non-empty chunk sequence in which every chunk has
at least one triangle (and counts fit the 8-byte fields), decoding the
chunked encoding returns `chunk_count` copies of the concatenation of all
chunks' triangles in order — NOT the original chunks; the round-trip of
the claim holds only for a single chunk.  A chunk with zero triangles is
not restored either: the reader raises on its zero count. -/
theorem C1_chunked_roundtrip_amended (chunks : List (List Tri))
    (hne : chunks ≠ []) (hcne : ∀ c ∈ chunks, c ≠ [])
    (h36 : ∀ c ∈ chunks, ∀ t ∈ c, t.length = 36)
    (hn : chunks.length < 2 ^ 64) (hlt : ∀ c ∈ chunks, c.length < 2 ^ 64) :
    read_opt_file (to_opt_file (chunks.map List.flatten)) =
      some (List.replicate chunks.length chunks.flatten) := by
  have hmap : (chunks.map List.flatten).map (fun c => le64 (c.length / 36) ++ c) =
      chunks.map fun c => le64 c.length ++ c.flatten := by
    rw [List.map_map]
    refine List.map_congr_left fun c hc => ?_
    have : c.flatten.length = 36 * c.length :=
      flatten_length_of_tri36 c (h36 c hc)
    simp [Function.comp, this, Nat.mul_div_cancel_left c.length (by norm_num : (0:Nat) < 36)]
  unfold to_opt_file read_opt_file
  rw [List.length_map, hmap]
  have henc := readChunksAcc_encode chunks [] [] hcne h36 hlt
  rw [List.append_nil] at henc
  rw [readLE64_le64 chunks.length _ hn]
  simp only
  rw [if_neg (by simpa [List.length_eq_zero] using hne), henc]
  simp

/-- Witness for C1 at a concrete single-chunk input. -/
theorem C1_witness :
    read_opt_file (to_opt_file (List.map List.flatten [[List.replicate 36 5]])) =
      some (List.replicate ([[List.replicate 36 5]] : List (List Tri)).length
        (List.flatten [[List.replicate 36 5]])) :=
  C1_chunked_roundtrip_amended [[List.replicate 36 5]] (by decide) (by decide)
    (by decide) (by norm_num) (by decide)

/-- The aliased chunk loop equals the per-chunk loop followed by
flattening onto the accumulator. -/
lemma readChunksAcc_eq_sep (n : Nat) :
    ∀ (acc : List Tri) (bs : List Nat),
      readChunksAcc n acc bs =
        (readChunksSep n bs).map fun p => (acc ++ p.1.flatten, p.2) := by
  induction n with
  | zero => intro acc bs; simp [readChunksAcc, readChunksSep]
  | succ n ih =>
    intro acc bs
    unfold readChunksAcc readChunksSep
    cases readLE64 bs with
    | none => rfl
    | some v =>
      obtain ⟨cnt, bs1⟩ := v
      by_cases hcnt : cnt = 0
      · simp [hcnt]
      · simp only [hcnt, if_false]
        cases readTris cnt bs1 with
        | none => rfl
        | some w =>
          obtain ⟨ts, bs2⟩ := w
          simp only [ih (acc ++ ts) bs2]
          cases readChunksSep n bs2 with
          | none => rfl
          | some q => simp [List.append_assoc]

/-- The per-chunk loop returns exactly `n` chunks. -/
lemma readChunksSep_length (n : Nat) :
    ∀ (bs : List Nat) (css : List (List Tri)) (rest : List Nat),
      readChunksSep n bs = some (css, rest) → css.length = n := by
  induction n with
  | zero => intro bs css rest h; simp [readChunksSep] at h; simp [h.1]
  | succ n ih =>
    intro bs css rest h
    unfold readChunksSep at h
    cases hle : readLE64 bs with
    | none => rw [hle] at h; exact absurd h (by simp)
    | some v =>
      obtain ⟨cnt, bs1⟩ := v
      rw [hle] at h
      by_cases hcnt : cnt = 0
      · simp [hcnt] at h
      · simp only [hcnt, if_false] at h
        cases htr : readTris cnt bs1 with
        | none => rw [htr] at h; exact absurd h (by simp)
        | some w =>
          obtain ⟨ts, bs2⟩ := w
          rw [htr] at h
          simp only at h
          cases hsep : readChunksSep n bs2 with
          | none => rw [hsep] at h; exact absurd h (by simp)
          | some q =>
            obtain ⟨css', rest'⟩ := q
            rw [hsep] at h
            simp only [Option.some.injEq, Prod.mk.injEq] at h
            rw [← h.1]
            simp [ih bs2 css' rest' hsep]

/-- C10 (confirmed): whenever `read_opt_file` accepts an input, every one
of the `n ≥ 1` returned chunks is the same list — `n` copies of the
concatenation, in read order, of the triangles of all chunks (the chunks
as delimited by the stream's per-chunk counts, which `readOptSep`
recovers); for `n ≥ 2` the chunks are therefore never independent. -/
theorem C10_aliased_chunks (bs : List Nat) (out : List (List Tri))
    (h : read_opt_file bs = some out) :
    ∃ cs, readOptSep bs = some cs ∧ out = List.replicate cs.length cs.flatten := by
  unfold read_opt_file at h
  unfold readOptSep
  cases hle : readLE64 bs with
  | none => rw [hle] at h; exact absurd h (by simp)
  | some v =>
    obtain ⟨n, bs1⟩ := v
    rw [hle] at h
    by_cases hn : n = 0
    · simp [hn] at h
    · simp only [hn, if_false] at h ⊢
      rw [readChunksAcc_eq_sep n [] bs1] at h
      cases hsep : readChunksSep n bs1 with
      | none => rw [hsep] at h; exact absurd h (by simp)
      | some q =>
        obtain ⟨css, rest⟩ := q
        rw [hsep] at h
        simp at h
        have hlen := readChunksSep_length n bs1 css rest hsep
        subst hlen
        exact ⟨css, rfl, h.symm⟩

/-- Witness for C10 at a concrete accepted two-chunk input. -/
theorem C10_witness :
    ∃ cs, readOptSep (to_opt_file [List.replicate 36 0, List.replicate 36 1]) = some cs ∧
      [[List.replicate 36 0, List.replicate 36 1],
       [List.replicate 36 0, List.replicate 36 1]] =
        List.replicate cs.length cs.flatten :=
  C10_aliased_chunks _ _ (by decide)

/-! ## C2 and C3: hull half-edge loop -/

deriving instance DecidableEq for Except

/-- The origin vertex index stored in half-edge record `e` (byte offset 2
of the 4-byte record), as a total accessor for in-bounds records. -/
def originOf (edges : List Nat) (e : Nat) : Nat :=
  (edges.get? (4 * e + 2)).getD 0

/-- The 36 bytes one hull-loop iteration at `(start_edge, edge, next_edge)
= (s, e, n)` emits: the clamped vertex slices of the origins of `e`, `s`
and `n`, in that order (the source order of `__init__.py` lines 72-76). -/
def hullTriBytes (verts edges : List Nat) (e s n : Nat) : List Nat :=
  vslice verts (12 * originOf edges e) ++ vslice verts (12 * originOf edges s) ++
    vslice verts (12 * originOf edges n)

/-- The fan-triangulation bytes of a face whose loop visits `e :: es` and
then returns to the start edge `s`. -/
def fanTris (verts edges : List Nat) (s : Nat) : Nat → List Nat → List Nat
  | e, [] => hullTriBytes verts edges e s s
  | e, n :: rest => hullTriBytes verts edges e s n ++ fanTris verts edges s n rest

/-- Boolean well-formedness of a face loop: starting at current edge `e`,
the successive `next` pointers visit `es` and then close back at the
start edge `s`, with every visited half-edge record in bounds and no
premature return to `s`. -/
def chainFromB (edges : List Nat) (s : Nat) : Nat → List Nat → Bool
  | e, [] =>
    (e != s) && (decide (4 * e + 2 < edges.length)) && (edges.get? (4 * e) == some s)
  | e, n :: rest =>
    (e != s) && (decide (4 * e + 2 < edges.length)) && (edges.get? (4 * e) == some n) &&
      chainFromB edges s n rest

/-- The head edge of a well-formed chain has an in-bounds record. -/
lemma chainFromB_head_lt (edges : List Nat) (s e : Nat) (es : List Nat)
    (h : chainFromB edges s e es = true) : 4 * e + 2 < edges.length := by
  cases es with
  | nil =>
    simp only [chainFromB, Bool.and_eq_true, decide_eq_true_eq] at h
    exact h.1.2
  | cons n rest =>
    simp only [chainFromB, Bool.and_eq_true, decide_eq_true_eq] at h
    exact h.1.1.2

/-- When all three half-edge records are in bounds, `triAt` succeeds and
emits the bytes `hullTriBytes` describes. -/
lemma triAt_eq_of_bounds (verts edges : List Nat) (e s n : Nat)
    (he : 4 * e + 2 < edges.length) (hs : 4 * s + 2 < edges.length)
    (hn : 4 * n + 2 < edges.length) :
    triAt verts edges e s n = some (hullTriBytes verts edges e s n) := by
  unfold triAt hullTriBytes originOf
  rw [List.get?_eq_get he, List.get?_eq_get hs, List.get?_eq_get hn]
  simp

/-- Exiting the loop: at the start edge the loop body never runs,
whatever the fuel. -/
lemma faceLoopGo_exit (verts edges : List Nat) (s fuel : Nat) :
    faceLoopGo verts edges s fuel s = some (Except.ok []) := by
  cases fuel <;> simp [faceLoopGo]

/-- One unfolding of the fuelled while loop on a productive iteration. -/
lemma faceLoopGo_step (verts edges : List Nat) (s fuel e n : Nat) (t : List Nat)
    (he : e ≠ s) (hn : edges.get? (4 * e) = some n)
    (ht : triAt verts edges e s n = some t) :
    faceLoopGo verts edges s (fuel + 1) e =
      match faceLoopGo verts edges s fuel n with
      | none => none
      | some (Except.error u) => some (Except.error u)
      | some (Except.ok rest) => some (Except.ok (t ++ rest)) := by
  conv_lhs => rw [faceLoopGo.eq_def]
  simp only [if_neg he, hn, ht]

/-- The 2-cycle `1 -> 2 -> 1` of the malformed edge buffer
`[1,0,0,0, 2,0,1,0, 1,0,2,0]` never reaches start edge 0: the loop is
still running after any number of iterations. -/
lemma badLoop_runs_forever :
    ∀ fuel : Nat,
      faceLoopGo [] [1,0,0,0, 2,0,1,0, 1,0,2,0] 0 fuel 1 = none ∧
        faceLoopGo [] [1,0,0,0, 2,0,1,0, 1,0,2,0] 0 fuel 2 = none := by
  intro fuel
  induction fuel with
  | zero => exact ⟨rfl, rfl⟩
  | succ f ih =>
    refine ⟨?_, ?_⟩
    · rw [faceLoopGo_step [] [1,0,0,0, 2,0,1,0, 1,0,2,0] 0 f 1 2 []
        (by decide) rfl rfl, ih.2]
    · rw [faceLoopGo_step [] [1,0,0,0, 2,0,1,0, 1,0,2,0] 0 f 2 1 []
        (by decide) rfl rfl, ih.1]

/-- C2 (code bug): hull extraction has NO iteration bound.  On the
malformed input with faces `[0]` and edges `[1,0,0,0, 2,0,1,0, 1,0,2,0]`
(whose `next` chain cycles `1 -> 2 -> 1` and never returns to start edge
0, with every access in bounds) the extraction loop is still running
after every number `fuel` of iterations — in particular after
`len(edges)` of them — and never signals any error, contradicting the
claimed `MalformedGeometry` guard. -/
theorem C2_no_iteration_bound :
    ∀ fuel : Nat,
      extractHullPart [] [0] [1,0,0,0, 2,0,1,0, 1,0,2,0] fuel = none := by
  intro fuel
  have h := (badLoop_runs_forever fuel).1
  unfold extractHullPart extractHullGo
  simp only [show ([1,0,0,0, 2,0,1,0, 1,0,2,0] : List Nat).get? (4 * 0) = some 1 from rfl]
  rw [h]

/-- C3 counterexample: on a single triangular face (start edge 0, loop
`1 -> 2 -> 0`, origins 0/1/2 with pairwise distinct vertex records) the
first emitted 12-byte vertex is the CURRENT edge's origin vertex
(`List.replicate 12 20`), not the start edge's origin vertex
(`List.replicate 12 10`) the claim puts first. -/
theorem C3_counterexample :
    extractHullPart
        (List.replicate 12 10 ++ List.replicate 12 20 ++ List.replicate 12 30)
        [0] [1,0,0,0, 2,0,1,0, 0,0,2,0] 5 =
      some (Except.ok
        (List.replicate 12 20 ++ List.replicate 12 10 ++ List.replicate 12 30 ++
          (List.replicate 12 30 ++ List.replicate 12 10 ++ List.replicate 12 10))) ∧
      (List.replicate 12 20 : List Nat) ≠ List.replicate 12 10 := by
  decide

/-- C3 (amended): for every well-formed face loop (the `next` chain from
the start edge's successor visits `e :: es` and closes back at `s`, all
records in bounds), the loop succeeds and every emitted triangle at step
`(s, e, n)` consists, in order, of the vertex slice of `edge`'s origin
FIRST, then the start edge's origin, then the next edge's origin — the
claim's first two vertices are swapped relative to the code. -/
theorem C3_fan_order_amended (verts edges : List Nat) (s : Nat) (es : List Nat) :
    ∀ (e fuel : Nat), 4 * s + 2 < edges.length → chainFromB edges s e es = true →
      es.length < fuel →
      faceLoopGo verts edges s fuel e =
        some (Except.ok (fanTris verts edges s e es)) := by
  induction es with
  | nil =>
    intro e fuel hs hchain hfuel
    simp only [chainFromB, Bool.and_eq_true, decide_eq_true_eq, bne_iff_ne,
      beq_iff_eq] at hchain
    obtain ⟨⟨hne, hb⟩, hnext⟩ := hchain
    obtain ⟨f, rfl⟩ : ∃ f, fuel = f + 1 := ⟨fuel - 1, by omega⟩
    rw [faceLoopGo_step verts edges s f e s _ hne hnext
      (triAt_eq_of_bounds verts edges e s s hb hs hs), faceLoopGo_exit]
    simp [fanTris]
  | cons n rest ih =>
    intro e fuel hs hchain hfuel
    simp only [chainFromB, Bool.and_eq_true, decide_eq_true_eq, bne_iff_ne,
      beq_iff_eq] at hchain
    obtain ⟨⟨⟨hne, hb⟩, hnext⟩, hrest⟩ := hchain
    have hnb : 4 * n + 2 < edges.length := chainFromB_head_lt edges s n rest hrest
    obtain ⟨f, rfl⟩ : ∃ f, fuel = f + 1 := ⟨fuel - 1, by omega⟩
    rw [faceLoopGo_step verts edges s f e n _ hne hnext
      (triAt_eq_of_bounds verts edges e s n hb hs hnb),
      ih n f hs hrest (by simpa using hfuel)]
    simp [fanTris]

/-- Witness for C3 on the concrete triangular face. -/
theorem C3_witness :
    faceLoopGo (List.replicate 12 10 ++ List.replicate 12 20 ++ List.replicate 12 30)
        [1,0,0,0, 2,0,1,0, 0,0,2,0] 0 3 1 =
      some (Except.ok
        (fanTris
          (List.replicate 12 10 ++ List.replicate 12 20 ++ List.replicate 12 30)
          [1,0,0,0, 2,0,1,0, 0,0,2,0] 0 1 [2])) :=
  C3_fan_order_amended
    (List.replicate 12 10 ++ List.replicate 12 20 ++ List.replicate 12 30)
    [1,0,0,0, 2,0,1,0, 0,0,2,0] 0 [2] 1 3 (by decide) (by decide) (by decide)

/-! ## C4 and C8: block scanner -/

/-- An in-bounds 4-byte read succeeds and gives the little-endian value. -/
lemma readU32_eq (bs : List Nat) (p : Nat) (h : p + 4 ≤ bs.length) :
    readU32 bs p = some (u32at bs p) := by
  unfold readU32 u32at
  rw [if_pos h]

/-- The block-table loop exhausts with `blockNotFound` exactly when none
of its `rem` in-bounds entries has a `PHYS` tag with nonzero size. -/
lemma scanLoop_notFound_iff (bs : List Nat) :
    ∀ (rem p : Nat), p + 12 * rem ≤ bs.length →
      (scanLoop bs p rem = Except.error ScanErr.blockNotFound ↔
        ∀ k < rem, ¬(u32at bs (p + 12 * k) = physTag ∧
          u32at bs (p + 12 * k + 8) ≠ 0)) := by
  intro rem
  induction rem with
  | zero =>
    intro p hp
    simp [scanLoop]
  | succ r ih =>
    intro p hp
    have h0 : p + 12 * 0 = p := by ring
    have hsh : ∀ k : Nat, p + 12 * (k + 1) = (p + 12) + 12 * k := by intro k; ring
    unfold scanLoop
    rw [readU32_eq bs p (by omega), readU32_eq bs (p + 4) (by omega),
      readU32_eq bs (p + 8) (by omega)]
    simp only
    by_cases hsz : u32at bs (p + 8) = 0
    · rw [if_pos hsz, ih (p + 12) (by omega)]
      constructor
      · intro h k hk
        cases k with
        | zero => rw [h0]; intro hc; exact hc.2 hsz
        | succ k => rw [hsh k]; exact h k (by omega)
      · intro h k hk
        have := h (k + 1) (by omega)
        rwa [hsh k] at this
    · rw [if_neg hsz]
      by_cases htag : u32at bs p = physTag
      · rw [if_pos htag]
        constructor
        · intro h
          cases hslice : readSlice bs (p + 4 + u32at bs (p + 4)) (u32at bs (p + 8)) with
          | none => rw [hslice] at h; exact absurd h (by simp)
          | some d => rw [hslice] at h; exact absurd h (by simp)
        · intro h
          refine absurd ⟨?_, ?_⟩ (h 0 (by omega))
          · rw [h0]; exact htag
          · rw [show p + 12 * 0 + 8 = p + 8 by ring]; exact hsz
      · rw [if_neg htag, ih (p + 12) (by omega)]
        constructor
        · intro h k hk
          cases k with
          | zero =>
            rw [h0]
            intro hc
            exact htag hc.1
          | succ k => rw [hsh k]; exact h k (by omega)
        · intro h k hk
          have := h (k + 1) (by omega)
          rwa [hsh k] at this

/-- C8 (confirmed): for a container whose header and block table are in
bounds, the scanner raises `blockNotFound` if and only if none of the
first `block_count` entries has tag `PHYS` together with a nonzero
`data_size`; in particular a zero-size entry — even one tagged `PHYS` —
is skipped and scanning continues. -/
theorem C8_notFound_iff (bs : List Nat) (bo cnt : Nat)
    (hlen : 16 ≤ bs.length) (hbo : u32at bs 8 = bo) (hcnt : u32at bs 12 = cnt)
    (htab : bo + 8 + 12 * cnt ≤ bs.length) :
    get_physics_file bs = Except.error ScanErr.blockNotFound ↔
      ∀ k < cnt, ¬(u32at bs (bo + 8 + 12 * k) = physTag ∧
        u32at bs (bo + 8 + 12 * k + 8) ≠ 0) := by
  unfold get_physics_file
  rw [readU32_eq bs 0 (by omega), readU32_eq bs 4 (by omega),
    readU32_eq bs 8 (by omega), readU32_eq bs 12 (by omega)]
  simp only [hbo, hcnt]
  exact scanLoop_notFound_iff bs cnt (bo + 8) (by omega)

/-- Witness for C8 on a concrete container with two zero-size entries
(the second tagged `PHYS`): the scanner reports `blockNotFound`. -/
theorem C8_witness :
    get_physics_file
        [40,0,0,0, 0,0,0,0, 8,0,0,0, 2,0,0,0,
         68,65,84,65, 0,0,0,0, 0,0,0,0,
         80,72,89,83, 0,0,0,0, 0,0,0,0] = Except.error ScanErr.blockNotFound ↔
      ∀ k < 2,
        ¬(u32at
            [40,0,0,0, 0,0,0,0, 8,0,0,0, 2,0,0,0,
             68,65,84,65, 0,0,0,0, 0,0,0,0,
             80,72,89,83, 0,0,0,0, 0,0,0,0] (8 + 8 + 12 * k) = physTag ∧
          u32at
            [40,0,0,0, 0,0,0,0, 8,0,0,0, 2,0,0,0,
             68,65,84,65, 0,0,0,0, 0,0,0,0,
             80,72,89,83, 0,0,0,0, 0,0,0,0] (8 + 8 + 12 * k + 8) ≠ 0) :=
  C8_notFound_iff _ 8 2 (by decide) (by decide) (by decide) (by decide)

/-- When the first `PHYS`-and-nonzero-size entry of the table is entry
`j`, the loop returns the `size` bytes at `entry_start + 4 + rel` — the
offset base is the position right after the TYPE tag (before the offset
field), not after the offset field. -/
lemma scanLoop_found (bs : List Nat) :
    ∀ (j rem p : Nat), j < rem → p + 12 * j + 12 ≤ bs.length →
      (∀ k < j, u32at bs (p + 12 * k) = physTag → u32at bs (p + 12 * k + 8) = 0) →
      u32at bs (p + 12 * j) = physTag →
      u32at bs (p + 12 * j + 8) ≠ 0 →
      p + 12 * j + 4 + u32at bs (p + 12 * j + 4) + u32at bs (p + 12 * j + 8) ≤ bs.length →
      scanLoop bs p rem = Except.ok
        ((bs.drop (p + 12 * j + 4 + u32at bs (p + 12 * j + 4))).take
          (u32at bs (p + 12 * j + 8))) := by
  intro j
  induction j with
  | zero =>
    intro rem p hj hb hskip htag hsz hdata
    obtain ⟨r, rfl⟩ : ∃ r, rem = r + 1 := ⟨rem - 1, by omega⟩
    have h0 : p + 12 * 0 = p := by ring
    rw [h0] at htag hsz hdata ⊢
    unfold scanLoop
    rw [readU32_eq bs p (by omega), readU32_eq bs (p + 4) (by omega),
      readU32_eq bs (p + 8) (by omega)]
    simp only
    rw [if_neg hsz, if_pos htag]
    unfold readSlice
    rw [if_pos (by omega)]
  | succ j ihj =>
    intro rem p hj hb hskip htag hsz hdata
    obtain ⟨r, rfl⟩ : ∃ r, rem = r + 1 := ⟨rem - 1, by omega⟩
    have hsh : ∀ k : Nat, p + 12 * (k + 1) = (p + 12) + 12 * k := by intro k; ring
    have h0 := hskip 0 (by omega)
    rw [show p + 12 * 0 = p by ring, show p + 12 * 0 + 8 = p + 8 by ring] at h0
    rw [hsh j] at htag hsz hdata ⊢
    have hrec := ihj r (p + 12) (by omega) (by omega)
      (fun k hk => by
        have := hskip (k + 1) (by omega)
        rwa [hsh k] at this)
      htag hsz hdata
    unfold scanLoop
    rw [readU32_eq bs p (by omega), readU32_eq bs (p + 4) (by omega),
      readU32_eq bs (p + 8) (by omega)]
    simp only
    by_cases hsz0 : u32at bs (p + 8) = 0
    · rw [if_pos hsz0]
      exact hrec
    · rw [if_neg hsz0, if_neg (fun htag0 => hsz0 (h0 htag0))]
      exact hrec

/-- C4 counterexample: a container with one `PHYS` entry (entry start 16,
offset field at 20 holding 8, size 4).  The scanner returns the bytes at
`20 + 8 = 28` (`[1,2,3,4]`), not the bytes at
`position-after-the-offset-field + value = 24 + 8 = 32` (`[9,9,9,9]`)
that the claim's offset arithmetic names. -/
theorem C4_counterexample :
    get_physics_file
        [36,0,0,0, 0,0,0,0, 8,0,0,0, 1,0,0,0,
         80,72,89,83, 8,0,0,0, 4,0,0,0,
         1,2,3,4, 9,9,9,9] = Except.ok [1,2,3,4] ∧
      (([36,0,0,0, 0,0,0,0, 8,0,0,0, 1,0,0,0,
         80,72,89,83, 8,0,0,0, 4,0,0,0,
         1,2,3,4, 9,9,9,9] : List Nat).drop (24 + 8)).take 4 = [9,9,9,9] ∧
      get_physics_file
        [36,0,0,0, 0,0,0,0, 8,0,0,0, 1,0,0,0,
         80,72,89,83, 8,0,0,0, 4,0,0,0,
         1,2,3,4, 9,9,9,9] ≠ Except.ok
          ((([36,0,0,0, 0,0,0,0, 8,0,0,0, 1,0,0,0,
              80,72,89,83, 8,0,0,0, 4,0,0,0,
              1,2,3,4, 9,9,9,9] : List Nat).drop (24 + 8)).take 4) := by
  refine ⟨rfl, rfl, ?_⟩
  decide

/-- C4 (amended): for every container whose header and table are in
bounds and whose first `PHYS`-with-nonzero-size entry is entry `j`, the
scanner returns exactly `data_size` bytes starting at the entry's
position immediately AFTER its type tag (= immediately BEFORE its
`data_rel_offset` field, i.e. `block_offset + 8 + 12 j + 4`) plus the
field's value — regardless of the entry count and of `j`. -/
theorem C4_offset_amended (bs : List Nat) (bo cnt j : Nat)
    (hlen : 16 ≤ bs.length) (hbo : u32at bs 8 = bo) (hcnt : u32at bs 12 = cnt)
    (htab : bo + 8 + 12 * cnt ≤ bs.length) (hj : j < cnt)
    (hskip : ∀ k < j, u32at bs (bo + 8 + 12 * k) = physTag →
      u32at bs (bo + 8 + 12 * k + 8) = 0)
    (htag : u32at bs (bo + 8 + 12 * j) = physTag)
    (hsz : u32at bs (bo + 8 + 12 * j + 8) ≠ 0)
    (hdata : bo + 8 + 12 * j + 4 + u32at bs (bo + 8 + 12 * j + 4) +
      u32at bs (bo + 8 + 12 * j + 8) ≤ bs.length) :
    get_physics_file bs = Except.ok
      ((bs.drop (bo + 8 + 12 * j + 4 + u32at bs (bo + 8 + 12 * j + 4))).take
        (u32at bs (bo + 8 + 12 * j + 8))) := by
  unfold get_physics_file
  rw [readU32_eq bs 0 (by omega), readU32_eq bs 4 (by omega),
    readU32_eq bs 8 (by omega), readU32_eq bs 12 (by omega)]
  simp only [hbo, hcnt]
  exact scanLoop_found bs j cnt (bo + 8) hj (by omega) hskip htag hsz hdata

/-- Witness for C4 on the concrete one-entry container. -/
theorem C4_witness :
    get_physics_file
        [36,0,0,0, 0,0,0,0, 8,0,0,0, 1,0,0,0,
         80,72,89,83, 8,0,0,0, 4,0,0,0,
         1,2,3,4, 9,9,9,9] = Except.ok
      ((([36,0,0,0, 0,0,0,0, 8,0,0,0, 1,0,0,0,
          80,72,89,83, 8,0,0,0, 4,0,0,0,
          1,2,3,4, 9,9,9,9] : List Nat).drop
        (8 + 8 + 12 * 0 + 4 + u32at
          [36,0,0,0, 0,0,0,0, 8,0,0,0, 1,0,0,0,
           80,72,89,83, 8,0,0,0, 4,0,0,0,
           1,2,3,4, 9,9,9,9] (8 + 8 + 12 * 0 + 4))).take
        (u32at
          [36,0,0,0, 0,0,0,0, 8,0,0,0, 1,0,0,0,
           80,72,89,83, 8,0,0,0, 4,0,0,0,
           1,2,3,4, 9,9,9,9] (8 + 8 + 12 * 0 + 8))) :=
  C4_offset_amended _ 8 1 0 (by decide) (by decide) (by decide) (by decide)
    (by decide) (fun k hk => by omega) (by decide) (by decide) (by decide)
